import Mathlib

/-!
# Verification of the webcrawler scheduler core

Shallow embedding of the Go sources of the `webcrawler` repository
(packages `base`, `middleware`, `downloader`, `analyzer`, `itempipeline`,
`scheduler`) together with proofs about the spec's claims.

Machine integers (`uint32`, `uint64`) are modelled as `Nat`; every value
manipulated here stays far below `2^32`, and no claim depends on overflow,
so the `% 2^32` wrap is written only where a counter is incremented.
Concurrency primitives (mutexes, channels as synchronisation devices) are
not observable in the sequential functions modelled here; channels that act
as data containers (the pool's `container`) are modelled as FIFO lists.
-/

namespace Crawler

/-! ## Package `base`: errors (src/base/error.go) -/

/-- `base.ErrorType`: a string-typed error kind. -/
abbrev ErrorType := String

/-- `base.DOWNLOADER_ERROR`. -/
def DOWNLOADER_ERROR : ErrorType := "Downloader Error"

/-- `base.ANALYZER_ERROR`. -/
def ANALYZER_ERROR : ErrorType := "Analyzer Error"

/-- `base.ITEM_PROCESSOR_ERROR` (note the triple `s` in the source string). -/
def ITEM_PROCESSOR_ERROR : ErrorType := "Item Processsor Error"

/-- `base.myCrawlerError`: the error type and message.  The cached
`fullErrMsg` field is an optimisation invisible to `Error()`'s result and is
not part of the state. -/
structure MyCrawlerError where
  errType : ErrorType
  errMsg : String
deriving DecidableEq, Repr

/-- `base.NewCrawlerError`. -/
def NewCrawlerError (errType : ErrorType) (errMsg : String) : MyCrawlerError :=
  { errType := errType, errMsg := errMsg }

/-- `(*myCrawlerError).genFullErrMsg`: writes `爬虫错误(Crawler Error)：`,
then, when the type is nonempty, the type followed by `: `, then the
message, and a final `\n` added by `fmt.Sprintf("%s\n", …)`. -/
def MyCrawlerError.genFullErrMsg (ce : MyCrawlerError) : String :=
  "爬虫错误(Crawler Error)："
    ++ (if ce.errType ≠ "" then ce.errType ++ ": " else "")
    ++ ce.errMsg ++ "\n"

/-- `(*myCrawlerError).Error`: returns the (lazily cached) full message. -/
def MyCrawlerError.Error (ce : MyCrawlerError) : String :=
  ce.genFullErrMsg

/-! ## Package `base`: data model (src/base, unnamed part) -/

/-- A `net/url.URL` as the scheduler observes it: its `Scheme` field and the
serialisation produced by `URL.String()`.  The URL type itself is external
to the repository; only these two observations are consumed. -/
structure URL where
  scheme : String
  str : String
deriving DecidableEq, Repr

/-- A `net/http.Request` as the scheduler observes it: the (possibly nil)
`URL` field and the `Host` field. -/
structure HttpRequest where
  url : Option URL
  host : String
deriving DecidableEq, Repr

/-- `base.Request`: a possibly-nil `*http.Request` plus a depth (`uint32`). -/
structure Request where
  httpReq : Option HttpRequest
  depth : Nat
deriving DecidableEq, Repr

/-- `base.NewRequest`. -/
def NewRequest (httpReq : Option HttpRequest) (depth : Nat) : Request :=
  { httpReq := httpReq, depth := depth }

/-- `(*Request).HttpReq`. -/
def Request.HttpReq (req : Request) : Option HttpRequest := req.httpReq

/-- `(*Request).Depth`. -/
def Request.Depth (req : Request) : Nat := req.depth

/-- `base.Item`: a string-keyed map of opaque values; the values are never
inspected by the scheduler, so they are modelled by an opaque string. -/
abbrev Item := List (String × String)

/-- `base.Data`: the sum of the values an analyzer parser may emit.  In Go
this is the interface `Data`; the scheduler's dispatch distinguishes
`*base.Request`, `*base.Item`, and any other implementor (`other`). -/
inductive Data where
  | req (r : Request)
  | item (i : Item)
  | other
deriving DecidableEq, Repr

/-! ## Package `analyzer` (src/analyzer/analyzer.go) -/

/-- `analyzer.appendDataList` (src/analyzer/analyzer.go:82-95).  A nil
`data` is skipped; a non-`*Request` datum is appended as is; for a
`*Request` the function computes `newDetpth := respDepth + 1` and, when the
request's depth differs, builds a depth-corrected request — but the Go code
then executes `append(dataList, data)`, appending the ORIGINAL datum, so
the corrected value `req` is discarded.  The unused `let` mirrors that
dead store. -/
def appendDataList (dataList : List Data) (data : Option Data) (respDepth : Nat) :
    List Data :=
  match data with
  | none => dataList
  | some d =>
    match d with
    | Data.req r =>
      let newDetpth := (respDepth + 1) % 2 ^ 32
      let _corrected : Request :=
        if r.Depth ≠ newDetpth then NewRequest r.HttpReq newDetpth else r
      dataList ++ [d]
    | _ => dataList ++ [d]

/-- The behaviour the spec mandates for `appendDataList` (§3 *Depth
monotone*, §4.7 step 3, §9 note 1): the depth-corrected request is the one
appended. Modelled from the spec: this definition exists only to exhibit
the divergence between the source and the specification. -/
def appendDataListSpec (dataList : List Data) (data : Option Data) (respDepth : Nat) :
    List Data :=
  match data with
  | none => dataList
  | some d =>
    match d with
    | Data.req r =>
      let newDepth := (respDepth + 1) % 2 ^ 32
      dataList ++ [Data.req (if r.Depth ≠ newDepth then NewRequest r.HttpReq newDepth else r)]
    | _ => dataList ++ [d]

/-! ## Package `downloader` (src/downloader/downloader.go) -/

/-- `downloader.myPageDownloader`: a bound HTTP client (opaque) and an id. -/
structure MyPageDownloader where
  id : Nat
deriving DecidableEq, Repr

/-- `(*myPageDownloader).Id` (src/downloader/downloader.go:36-38).  The Go
body is `return dl.Id()`: the method calls itself and never returns.  The
recursion is modelled with explicit fuel: `none` means the call has not
produced a value within `fuel` nested calls. -/
def MyPageDownloader.IdCall (dl : MyPageDownloader) : Nat → Option Nat
  | 0 => none
  | fuel + 1 => dl.IdCall fuel

/-- The behaviour the spec mandates for `Id` (§3 *PoolEntity*, §9 note 2):
return the stored id directly. Modelled from the spec: exhibits the intent
the recursive source body fails to implement. -/
def MyPageDownloader.IdSpec (dl : MyPageDownloader) : Nat := dl.id

/-! ## Package `itempipeline` (src/itempipeline, unnamed part & helper.go blob) -/

/-- `itempipeline.ProcessItem`: `Item → (Item?, error?)`. -/
abbrev ProcessItem := Item → Option Item × Option String

/-- The counters of `itempipeline.myItemPipeline` (all `uint64` in Go). -/
structure PipelineState where
  failFast : Bool
  sent : Nat
  accepted : Nat
  processed : Nat
  processingNumber : Nat
deriving DecidableEq, Repr

/-- The processor loop of `(*myItemPipeline).Send`: threads `currentItem`
through the processors; a processor error is appended to `errs` and, with
`failFast`, breaks the loop at once (before the item-replacement step); a
non-nil processed item replaces `currentItem`. Returns the final
`currentItem` and the accumulated errors. -/
def sendLoop (failFast : Bool) (procs : List ProcessItem) (currentItem : Item)
    (errs : List String) : Item × List String :=
  match procs with
  | [] => (currentItem, errs)
  | p :: rest =>
    let (processedItem, err) := p currentItem
    match err with
    | some e =>
      if failFast then
        (currentItem, errs ++ [e])
      else
        let next := match processedItem with
          | some it => it
          | none => currentItem
        sendLoop failFast rest next (errs ++ [e])
    | none =>
      let next := match processedItem with
        | some it => it
        | none => currentItem
      sendLoop failFast rest next errs

/-- `(*myItemPipeline).Send` (helper.go blob, lines 165-190).  On entry
`processingNumber` is incremented, and the deferred
`atomic.AddUint64(&ip.processingNumber, ^uint64(1))` adds `^uint64(1)`,
i.e. `2^64 - 2`, on every exit path (Go's unary `^` is bitwise NOT, so
this is not the `^uint64(0)` decrement idiom; together with the entry
increment each call nets `processingNumber - 1 mod 2^64`); `sent` is
incremented; a nil item returns one error without touching `accepted` or
`processed`; otherwise `accepted` is incremented, the loop runs, and
`processed` is incremented once after the loop. -/
def PipelineSend (st : PipelineState) (procs : List ProcessItem)
    (item : Option Item) : PipelineState × List String :=
  let st := { st with
              processingNumber := (st.processingNumber + 1) % 2 ^ 64 }
  let st := { st with sent := (st.sent + 1) % 2 ^ 64 }
  match item with
  | none =>
    ({ st with
       processingNumber := (st.processingNumber + (2 ^ 64 - 2)) % 2 ^ 64 },
     ["The item is invalid"])
  | some it =>
    let st := { st with accepted := (st.accepted + 1) % 2 ^ 64 }
    let (_, errs) := sendLoop st.failFast procs it []
    ({ st with
       processed := (st.processed + 1) % 2 ^ 64,
       processingNumber := (st.processingNumber + (2 ^ 64 - 2)) % 2 ^ 64 },
     errs)

/-- The processor chain as the spec words it (§4.8, §6 *Item processor*):
thread `current_item` through the processors in order, a null result leaves
it unchanged and a non-null result replaces it, accumulate every error, and
with `fail_fast` halt at the first processor that errors. Modelled from the
spec for the refinement comparison with `sendLoop`. -/
def chainSpec (failFast : Bool) (procs : List ProcessItem) (currentItem : Item) :
    List String :=
  match procs with
  | [] => []
  | p :: rest =>
    let (processedItem, err) := p currentItem
    let next := match processedItem with
      | some it => it
      | none => currentItem
    match err with
    | some e => if failFast then [e] else e :: chainSpec failFast rest next
    | none => chainSpec failFast rest next

/-! ## Package `scheduler`: primary-domain extractor (src/scheduler/helper.go)

The two regular expressions of helper.go are embedded as explicit
matching functions.  Every pattern in `regexpForDomains` is end-anchored
(`$`), so `FindStringIndex` returns the least position whose suffix is one
of the pattern's alternatives; the IP regex is unanchored, so
`MatchString` asks whether a dotted-quad match begins at any position. -/

/-- Go's `\w` on the ASCII range: `[0-9A-Za-z_]`. -/
def wordChar (c : Char) : Bool := c.isAlphanum || c = '_'

/-- The whitespace recognised by `strings.TrimSpace` (`unicode.IsSpace`),
restricted to the Latin-1 range; the astral Unicode space characters never
appear in a host string. -/
def isSpaceGo (c : Char) : Bool :=
  c = ' ' || c = '\t' || c = '\n' || c = '\x0b' || c = '\x0c' || c = '\r'
    || c = '\x85' || c = '\xa0'

/-- `strings.TrimSpace`. -/
def trimSpace (s : List Char) : List Char :=
  ((s.dropWhile isSpaceGo).reverse.dropWhile isSpaceGo).reverse

/-- One octet of `regexpForIp`, i.e. `25[0-5]|2[0-4]\d|[01]?\d?\d`, matched
against an explicit run of one to three characters. -/
def isOctStr : List Char → Bool
  | [a] => a.isDigit
  | [a, b] => a.isDigit && b.isDigit
  | [a, b, c] =>
      (a == '2' && b == '5' && c.isDigit && c ≤ '5')
      || (a == '2' && b.isDigit && b ≤ '4' && c.isDigit)
      || ((a == '0' || a == '1') && b.isDigit && c.isDigit)
  | _ => false

/-- A match of `regexpForIp` beginning exactly at the head of `s`, with
`k + 1` octets still to match (the match may end before `s` does). -/
def ipFrom : Nat → List Char → Bool
  | 0, s => isOctStr (s.take 1) || isOctStr (s.take 2) || isOctStr (s.take 3)
  | k + 1, s =>
      (isOctStr (s.take 1)
        && (match s.drop 1 with | '.' :: r => ipFrom k r | _ => false))
      || (isOctStr (s.take 2)
        && (match s.drop 2 with | '.' :: r => ipFrom k r | _ => false))
      || (isOctStr (s.take 3)
        && (match s.drop 3 with | '.' :: r => ipFrom k r | _ => false))

/-- `regexpForIp.MatchString`: a dotted-quad match begins at some position. -/
def ipMatch : List Char → Bool
  | [] => ipFrom 3 []
  | s@(_ :: rest) => ipFrom 3 s || ipMatch rest

/-- The shapes occurring in `regexpForDomains`: `\.lit$`,
`\.(lit|lit\.\w{2})$`, and the fallback `\.\w{2}$`. -/
inductive DomPat where
  | lit (w : List Char)
  | litCc (w : List Char)
  | anyTwo
deriving DecidableEq, Repr

/-- Whether the end-anchored pattern matches the whole of `s` (i.e. a match
starting at this position runs to the end of the subject). -/
def patMatch : DomPat → List Char → Bool
  | .lit w, s => s == '.' :: w
  | .litCc w, s =>
      s == '.' :: w
      || (s.take (w.length + 1) == '.' :: w
          && (match s.drop (w.length + 1) with
              | ['.', c1, c2] => wordChar c1 && wordChar c2
              | _ => false))
  | .anyTwo, s =>
      match s with
      | ['.', c1, c2] => wordChar c1 && wordChar c2
      | _ => false

/-- `scheduler.regexpForDomains`, in source order. -/
def regexpForDomains : List DomPat :=
  [ .litCc ['c','o','m'], .litCc ['g','o','v'], .litCc ['n','e','t'],
    .litCc ['o','r','g'],
    .lit ['m','e'], .lit ['b','i','z'], .lit ['i','n','f','o'],
    .lit ['n','a','m','e'], .lit ['m','o','b','i'], .lit ['s','o'],
    .lit ['a','s','i','a'], .lit ['t','e','l'], .lit ['t','v'],
    .lit ['c','c'], .lit ['c','o'], .anyTwo ]

/-- `re.FindStringIndex(host)[0]` for an end-anchored pattern: the least
position whose suffix matches, `none` when no position does. -/
def findPatIdx (p : DomPat) : List Char → Option Nat
  | [] => if patMatch p [] then some 0 else none
  | s@(_ :: rest) =>
      if patMatch p s then some 0 else (findPatIdx p rest).map (· + 1)

/-- The `for _, re := range regexpForDomains` loop of `getPrimaryDomain`:
the first pattern that matches anywhere contributes its match's start. -/
def findSuffixIndex : List DomPat → List Char → Option Nat
  | [], _ => none
  | p :: ps, s =>
      match findPatIdx p s with
      | some i => some i
      | none => findSuffixIndex ps s

/-- `strings.LastIndex(firstPart, ".")`, as an option (Go yields `-1` for
absence). -/
def lastDot : List Char → Option Nat
  | [] => none
  | c :: rest =>
      match lastDot rest with
      | some j => some (j + 1)
      | none => if c = '.' then some 0 else none

/-- Lines 83-90 of helper.go: `firstPart := host[:suffixIndex]`, and
`pdIndex` is 0 when `firstPart` holds no dot, one past its last dot
otherwise. -/
def pdIndexOf (host : List Char) (suffixIndex : Nat) : Nat :=
  match lastDot (host.take suffixIndex) with
  | none => 0
  | some idx => idx + 1

/-- `scheduler.getPrimaryDomain` (src/scheduler/helper.go:66-95) on
character lists.  An unmatched pattern list leaves Go's `suffixIndex` at
its zero value, and a first match at position 0 stores 0, so both fall
into the `suffixIndex > 0` failure branch. -/
def getPrimaryDomainL (host : List Char) : Except String (List Char) :=
  if trimSpace host = [] then .error "The host is empty!"
  else if ipMatch (trimSpace host) then .ok (trimSpace host)
  else if 0 < (findSuffixIndex regexpForDomains (trimSpace host)).getD 0 then
    .ok ((trimSpace host).drop
      (pdIndexOf (trimSpace host)
        ((findSuffixIndex regexpForDomains (trimSpace host)).getD 0)))
  else .error "Unrecognized host!"

/-- `scheduler.getPrimaryDomain` on strings. -/
def getPrimaryDomain (host : String) : Except String String :=
  (getPrimaryDomainL host.toList).map fun l => ⟨l⟩

/-- The `pd, _ := getPrimaryDomain(httpReq.Host)` idiom of
`saveReqToCache`: the error is dropped and `pd` is the empty string the Go
function returns alongside an error. -/
def primaryDomainOrEmpty (host : String) : String :=
  match getPrimaryDomain host with
  | .ok pd => pd
  | .error _ => ""

/-! ## Package `middleware`: entity pool (src/middleware/pool.go) -/

/-- A `middleware.Entity` as the pool observes it: its id (`uint32`) and
its runtime type token (`reflect.TypeOf`), modelled as a type name. -/
structure Entity where
  eid : Nat
  etype : String
deriving DecidableEq, Repr

/-- Lookup in a Go map modelled as an association list with distinct keys
(`v, ok := m[k]`). -/
def lookupId : List (Nat × Bool) → Nat → Option Bool
  | [], _ => none
  | (k, v) :: rest, id => if k = id then some v else lookupId rest id

/-- Update of an existing key (`m[k] = v` when `k` is present). -/
def setId : List (Nat × Bool) → Nat → Bool → List (Nat × Bool)
  | [], _, _ => []
  | (k, w) :: rest, id, v =>
      if k = id then (k, v) :: rest else (k, w) :: setId rest id v

/-- Go map assignment `m[k] = v`: updates the key when present, inserts it
otherwise. -/
def mapPut (m : List (Nat × Bool)) (id : Nat) (v : Bool) : List (Nat × Bool) :=
  if (lookupId m id).isSome then setId m id v else m ++ [(id, v)]

/-- `middleware.myPool`: capacity, expected entity type, the buffered
`container` channel (a FIFO list whose head is the next value received),
and the occupancy map `idContainer`. -/
structure PoolState where
  total : Nat
  etype : String
  container : List Entity
  idContainer : List (Nat × Bool)
deriving DecidableEq, Repr

/-- `middleware.NewPool` (src/middleware/pool.go:32-58): rejects a zero
capacity, then stores the `total` eagerly generated entities — entity `i`
being `gen i` — in the container, recording each id as present; a
generated entity of the wrong type is rejected. -/
def NewPool (total : Nat) (etype : String) (gen : Nat → Entity) :
    Except String PoolState :=
  if total = 0 then
    .error "The pool can not be initialized (total=0)\n"
  else if ((List.range total).map gen).all (fun e => e.etype == etype) then
    .ok { total := total, etype := etype,
          container := (List.range total).map gen,
          idContainer := ((List.range total).map gen).foldl
            (fun m e => mapPut m e.eid true) [] }
  else
    .error "The type of result of function genEntity() is NOT the expected type!\n"

/-- `(*myPool).Take` (src/middleware/pool.go:60-69): receive from the
container — an empty pool blocks, modelled as `none` with no state change —
then mark the received entity's id as absent. -/
def PoolState.Take (pool : PoolState) : Option (Entity × PoolState) :=
  match pool.container with
  | [] => none
  | entity :: rest =>
      some (entity,
        { pool with container := rest,
                    idContainer := mapPut pool.idContainer entity.eid false })

/-- `(*myPool).compareAndSetForIdContainer` (src/middleware/pool.go:93-105):
`-1` for an unknown id, `0` when the current mark differs from `oldValue`,
`1` after flipping the mark to `newValue`. -/
def PoolState.compareAndSetForIdContainer (pool : PoolState) (entityId : Nat)
    (oldValue newValue : Bool) : Int × PoolState :=
  match lookupId pool.idContainer entityId with
  | none => (-1, pool)
  | some v =>
      if v ≠ oldValue then (0, pool)
      else (1, { pool with idContainer := setId pool.idContainer entityId newValue })

/-- `(*myPool).Return` (src/middleware/pool.go:71-91).  The Go nil check
cannot fire (entities are values here); a type mismatch, a mark already
`true` (double return) and an unknown id each yield an error and leave the
pool untouched; on success the mark flips to `true` and the entity is sent
back into the container. -/
def PoolState.Return (pool : PoolState) (entity : Entity) :
    PoolState × Option String :=
  if entity.etype ≠ pool.etype then
    (pool, some ("The type of returning entity is NOT " ++ pool.etype ++ "\n"))
  else
    let (casResult, pool') := pool.compareAndSetForIdContainer entity.eid false true
    if casResult = 1 then
      ({ pool' with container := pool'.container ++ [entity] }, none)
    else if casResult = 0 then
      (pool', some ("The entity (id=" ++ toString entity.eid
                    ++ ") is already in the pool!\n"))
    else
      (pool', some ("The entity (id=" ++ toString entity.eid ++ ") is illegal!\n"))

/-- `(*myPool).Total`. -/
def PoolState.Total (pool : PoolState) : Nat := pool.total

/-- `(*myPool).used`: `total - uint32(len(container))`.  Under the pool
invariant the container never exceeds the capacity, so the `uint32`
subtraction never wraps and coincides with truncated `Nat` subtraction. -/
def PoolState.used (pool : PoolState) : Nat := pool.total - pool.container.length

/-- The number of entities idle in the container. -/
def PoolState.idleCount (pool : PoolState) : Nat := pool.container.length

/-- A client-visible pool operation: a (blocking) take, or a return of an
arbitrary entity value. -/
inductive PoolOp where
  | take
  | ret (e : Entity)
deriving DecidableEq, Repr

/-- The state reached after one operation (a take on an empty pool blocks
and changes nothing; a failed return changes nothing). -/
def applyOp (pool : PoolState) : PoolOp → PoolState
  | .take =>
      match pool.Take with
      | none => pool
      | some (_, pool') => pool'
  | .ret e => (pool.Return e).1

/-- The state reached after a sequence of operations. -/
def runOps (pool : PoolState) (ops : List PoolOp) : PoolState :=
  ops.foldl applyOp pool

/-- The structural invariant of a pool: occupancy keys are distinct and
count exactly `total`; container ids are distinct; an id sits in the
container exactly when its occupancy mark is `true`; and container
entities all carry the pool's entity type. -/
structure PoolInv (pool : PoolState) : Prop where
  keys_nodup : (pool.idContainer.map Prod.fst).Nodup
  total_eq : pool.total = pool.idContainer.length
  cont_nodup : (pool.container.map Entity.eid).Nodup
  mem_iff : ∀ id, id ∈ pool.container.map Entity.eid ↔
      lookupId pool.idContainer id = some true
  types_ok : ∀ e ∈ pool.container, e.etype = pool.etype

/-! ## Package `middleware`: stop sign (src/middleware, unnamed part) -/

/-- Increment-or-insert on the `dealCountMap` (`uint32` counts). -/
def bumpCount : List (String × Nat) → String → List (String × Nat)
  | [], code => [(code, 1)]
  | (k, v) :: rest, code =>
      if k = code then (k, (v + 1) % 2 ^ 32) :: rest
      else (k, v) :: bumpCount rest code

/-- `middleware.myStopSign`: the flag plus per-code ack counts. -/
structure StopSign where
  signed : Bool
  dealCountMap : List (String × Nat)
deriving DecidableEq, Repr

/-- `(*myStopSign).Signed`. -/
def StopSign.Signed (ss : StopSign) : Bool := ss.signed

/-- `(*myStopSign).Deal`: counts only when signed. -/
def StopSign.Deal (ss : StopSign) (code : String) : StopSign :=
  if ss.signed then { ss with dealCountMap := bumpCount ss.dealCountMap code }
  else ss

/-! ## Package `scheduler`: request cache and scheduler state -/

/-- Modelled from the spec (§4.4): the request cache — its Go file
(`scheduler.requestCache` with `newRequestCache`, `put`, `get`, `length`,
`close`) is not among the provided sources, only its callers are.  A FIFO
buffer of requests with a closed state; `put` is a no-op once closed. -/
structure RequestCache where
  buffer : List Request
  closed : Bool
deriving DecidableEq, Repr

/-- Modelled from the spec (§4.4): `put` appends while the cache is open. -/
def RequestCache.put (cache : RequestCache) (req : Request) : RequestCache :=
  if cache.closed then cache else { cache with buffer := cache.buffer ++ [req] }

/-- Modelled from the spec (§6 Configuration): `base.ChannelArgs`, whose Go
file with its `Check` method is not among the provided sources; each
channel length is validated to be positive. -/
structure ChannelArgs where
  reqChanLen : Nat
  respChanLen : Nat
  itemChanLen : Nat
  errorChanLen : Nat
deriving DecidableEq, Repr

/-- Modelled from the spec: `ChannelArgs.Check` fails iff some length is 0. -/
def ChannelArgs.check (a : ChannelArgs) : Option String :=
  if a.reqChanLen = 0 || a.respChanLen = 0 || a.itemChanLen = 0
      || a.errorChanLen = 0 then
    some "The channel args are invalid!"
  else none

/-- Modelled from the spec (§6 Configuration): `base.PoolBaseArgs`, whose
Go file with its `Check` method is not among the provided sources; each
pool size is validated to be positive. -/
structure PoolBaseArgs where
  pageDownloaderPoolSize : Nat
  analyzerPoolSize : Nat
deriving DecidableEq, Repr

/-- Modelled from the spec: `PoolBaseArgs.Check` fails iff some size is 0. -/
def PoolBaseArgs.check (a : PoolBaseArgs) : Option String :=
  if a.pageDownloaderPoolSize = 0 || a.analyzerPoolSize = 0 then
    some "The pool base args are invalid!"
  else none

/-- The fields of `scheduler.myScheduler` touched by the modelled
operations.  The channel manager, the two pools, the pipeline and the wait
group are concurrency plumbing, summarised by the initialisation data the
sequential code writes into them. -/
structure SchedState where
  channelArgs : ChannelArgs
  poolBaseArgs : PoolBaseArgs
  crawlDepth : Nat
  primaryDomain : String
  chanmanInitialized : Bool
  stopSign : StopSign
  dlpoolTotal : Nat
  analyzerPoolTotal : Nat
  itemProcessorCount : Nat
  running : Nat
  reqCache : RequestCache
  urlMap : List String
deriving DecidableEq, Repr

/-- `(*myScheduler).Running` (src/scheduler/scheduler.go:440-442). -/
def SchedState.Running (sched : SchedState) : Bool := sched.running == 1

/-- `strings.ToLower` on the ASCII range (URL schemes are ASCII). -/
def toLowerGo (s : String) : String := ⟨s.toList.map Char.toLower⟩

/-- `(*myScheduler).saveReqToCache` (src/scheduler/scheduler.go:345-380):
the admission procedure, with its checks in source order. -/
def SchedState.saveReqToCache (sched : SchedState) (req : Request)
    (code : String) : SchedState × Bool :=
  match req.HttpReq with
  | none => (sched, false)
  | some httpReq =>
    match httpReq.url with
    | none => (sched, false)
    | some reqUrl =>
      if toLowerGo reqUrl.scheme ≠ "http" then (sched, false)
      else if sched.urlMap.contains reqUrl.str then (sched, false)
      else if primaryDomainOrEmpty httpReq.host ≠ sched.primaryDomain then
        (sched, false)
      else if req.Depth > sched.crawlDepth then (sched, false)
      else if sched.stopSign.Signed then
        ({ sched with stopSign := sched.stopSign.Deal code }, false)
      else
        ({ sched with reqCache := sched.reqCache.put req,
                      urlMap := sched.urlMap ++ [reqUrl.str] }, true)

/-- `(*myScheduler).Start` (src/scheduler/scheduler.go:81-159), its
sequential prefix: the started-guard, the eager `running := 1` store, the
validations in source order, component construction, and the seeding of
the request cache.  The supervisor goroutines it spawns and the final
`wg.Wait()` are concurrency and do not affect the returned error or the
fields modelled here; on the success path the function blocks until `Stop`
and then returns `nil`. -/
def SchedState.Start (sched : SchedState) (channelArgs : ChannelArgs)
    (poolBaseArgs : PoolBaseArgs) (crawDepth : Nat)
    (httpClientGeneratorIsNil : Bool)
    (itemProcessors : Option (List (Option ProcessItem)))
    (firstHttpReq : Option HttpRequest) : SchedState × Option String :=
  if sched.running = 1 then
    (sched, some "The scheduler has been started\n")
  else
    let sched := { sched with running := 1 }
    match channelArgs.check with
    | some err => (sched, some err)
    | none =>
    let sched := { sched with channelArgs := channelArgs }
    match poolBaseArgs.check with
    | some err => (sched, some err)
    | none =>
    let sched := { sched with poolBaseArgs := poolBaseArgs,
                              crawlDepth := crawDepth,
                              chanmanInitialized := true }
    if httpClientGeneratorIsNil then
      (sched, some "The http client generator list is invalid")
    else if poolBaseArgs.pageDownloaderPoolSize = 0 then
      -- dead after `check`, kept for faithfulness to the Go error wrap
      (sched, some "Occur error shen get pagedownloader pool: total=0\n")
    else
    let sched := { sched with dlpoolTotal := poolBaseArgs.pageDownloaderPoolSize }
    if poolBaseArgs.analyzerPoolSize = 0 then
      (sched, some "Occur error shen get analyzer pool: total=0\n")
    else
    let sched := { sched with analyzerPoolTotal := poolBaseArgs.analyzerPoolSize }
    match itemProcessors with
    | none => (sched, some "THe item processor list is invalid")
    | some procs =>
      match procs.findIdx? Option.isNone with
      | some i => (sched, some ("The " ++ toString i ++ "th item processor is invalid"))
      | none =>
      let sched := { sched with itemProcessorCount := procs.length,
                                stopSign := { signed := false, dealCountMap := [] },
                                urlMap := [],
                                reqCache := { buffer := [], closed := false } }
      match firstHttpReq with
      | none => (sched, some "The first http request is invalid")
      | some firstReq =>
        match getPrimaryDomain firstReq.host with
        | .error err => (sched, some err)
        | .ok pd =>
          let sched := { sched with primaryDomain := pd }
          let firstRequest := NewRequest (some firstReq) 0
          ({ sched with reqCache := sched.reqCache.put firstRequest }, none)

/-! ## Theorems -/

/-- C1: evaluation of the code at the failing input.  A parser-emitted
request of depth 5 reaching `appendDataList` under a response of depth 0
is appended still carrying depth 5, while the spec-mandated behaviour
(`appendDataListSpec`) appends the depth-corrected request of depth 1:
the source builds the corrected request and then discards it. -/
theorem appendDataList_keeps_original_depth :
    appendDataList []
        (some (Data.req (NewRequest (some { url := none, host := "h" }) 5))) 0
      = [Data.req (NewRequest (some { url := none, host := "h" }) 5)]
    ∧ appendDataListSpec []
        (some (Data.req (NewRequest (some { url := none, host := "h" }) 5))) 0
      = [Data.req (NewRequest (some { url := none, host := "h" }) 1)] :=
  ⟨rfl, rfl⟩

/-- C3 counterexample: the claim's S1 table fails on the code.
`getPrimaryDomain "a.b.example.co.uk"` returns `"co.uk"` — only the
fallback `\.\w{2}$` pattern matches, at the final `".uk"`, and the label
before it is `"co"` — not `"example.co.uk"`; and the `"localhost"` error
message carries an exclamation mark, not a period. -/
theorem getPrimaryDomain_S1_fails :
    getPrimaryDomain "a.b.example.co.uk" = Except.ok "co.uk"
    ∧ getPrimaryDomain "a.b.example.co.uk" ≠ Except.ok "example.co.uk"
    ∧ getPrimaryDomain "localhost" = Except.error "Unrecognized host!"
    ∧ getPrimaryDomain "localhost" ≠ Except.error "Unrecognized host." := by
  refine ⟨rfl, ?_, rfl, ?_⟩
  · intro h
    rw [show getPrimaryDomain "a.b.example.co.uk" = Except.ok "co.uk" from rfl] at h
    simp at h
  · intro h
    rw [show getPrimaryDomain "localhost" = Except.error "Unrecognized host!" from rfl] at h
    simp at h

/-- C3 amended: scenario S1 with the outputs the code actually fixes:
`"www.example.com" → "example.com"`, `"a.b.example.co.uk" → "co.uk"`,
`"10.0.0.1"` verbatim, `"example.tv" → "example.tv"`, and `"localhost"`
yielding the error `"Unrecognized host!"`. -/
theorem getPrimaryDomain_S1 :
    getPrimaryDomain "www.example.com" = Except.ok "example.com"
    ∧ getPrimaryDomain "a.b.example.co.uk" = Except.ok "co.uk"
    ∧ getPrimaryDomain "10.0.0.1" = Except.ok "10.0.0.1"
    ∧ getPrimaryDomain "example.tv" = Except.ok "example.tv"
    ∧ getPrimaryDomain "localhost" = Except.error "Unrecognized host!" :=
  ⟨rfl, rfl, rfl, rfl, rfl⟩

/-- C7: the downloader's `Id()` body is `return dl.Id()`, a self-call, so
no amount of call fuel makes it produce the stored id (or any value at
all), while the spec-mandated accessor returns the stored id. -/
theorem pageDownloader_Id_never_returns (dl : MyPageDownloader) :
    (∀ fuel, dl.IdCall fuel = none) ∧ dl.IdSpec = dl.id := by
  refine ⟨fun fuel => ?_, rfl⟩
  induction fuel with
  | zero => rfl
  | succ n ih => exact ih

/-- C9 counterexample: the stringification of a `DOWNLOADER`-kind crawler
error is not `"Crawler Error: <kind>: <message>"`: the code prefixes
`"爬虫错误(Crawler Error)："` (with a fullwidth colon) and appends a
newline, and the kind renders as `"Downloader Error"`. -/
theorem crawlerError_string_not_as_claimed :
    (NewCrawlerError DOWNLOADER_ERROR "x").Error
      = "爬虫错误(Crawler Error)：Downloader Error: x\n"
    ∧ (NewCrawlerError DOWNLOADER_ERROR "x").Error ≠ "Crawler Error: Downloader Error: x"
    ∧ (NewCrawlerError DOWNLOADER_ERROR "x").Error ≠ "Crawler Error: DOWNLOADER: x" := by
  refine ⟨rfl, ?_, ?_⟩ <;>
    · intro h
      rw [show (NewCrawlerError DOWNLOADER_ERROR "x").Error
            = "爬虫错误(Crawler Error)：Downloader Error: x\n" from rfl] at h
      simp at h

/-- C9 amended: for the three stage kinds, `Error()` is exactly
`"爬虫错误(Crawler Error)：" ++ kind ++ ": " ++ message ++ "\n"`, the kind
rendering as `"Downloader Error"`, `"Analyzer Error"` or
`"Item Processsor Error"`. -/
theorem crawlerError_string (kind : ErrorType) (msg : String)
    (h : kind = DOWNLOADER_ERROR ∨ kind = ANALYZER_ERROR ∨ kind = ITEM_PROCESSOR_ERROR) :
    (NewCrawlerError kind msg).Error
      = "爬虫错误(Crawler Error)：" ++ kind ++ ": " ++ msg ++ "\n" := by
  have hk : ¬kind = "" := by
    rcases h with h | h | h <;> subst h <;> decide
  simp [NewCrawlerError, MyCrawlerError.Error, MyCrawlerError.genFullErrMsg, hk,
    String.append_assoc]

/-- Witness for the amended C9 theorem at the `ITEM_PROCESSOR` kind. -/
theorem crawlerError_string_witness :
    (NewCrawlerError ITEM_PROCESSOR_ERROR "boom").Error
      = "爬虫错误(Crawler Error)：Item Processsor Error: boom\n" :=
  crawlerError_string ITEM_PROCESSOR_ERROR "boom" (Or.inr (Or.inr rfl))

/-- The error-accumulation shape of the `Send` processor loop: the loop
threads the current item and appends the errors of the processors it runs,
which is exactly the spec-side chain `chainSpec`. -/
theorem sendLoop_errs (ff : Bool) (procs : List ProcessItem) :
    ∀ cur errs, (sendLoop ff procs cur errs).2 = errs ++ chainSpec ff procs cur := by
  induction procs with
  | nil => intro cur errs; simp [sendLoop, chainSpec]
  | cons p rest ih =>
    intro cur errs
    simp only [sendLoop, chainSpec]
    cases hp : p cur with
    | mk processedItem err =>
      cases err with
      | some e =>
        cases ff with
        | true => simp
        | false => simp [ih]
      | none => simp [ih]

/-- C8: `Send` on a non-null item.  The returned error list is exactly the
chain described by the spec — `current_item` threaded through the
processors in order, a null processor result keeping it and a non-null one
replacing it, every error accumulated, and `fail_fast` halting the chain at
the first error while otherwise all processors run (`chainSpec` transcribes
those words).  The counters move by: `sent`, `accepted` and `processed`
each up by one — `processed` incremented exactly once, after the loop — and
`processingNumber` nets a decrement by one modulo `2^64`, because the
deferred exit add of `^uint64(1) = 2^64 - 2` overshoots the entry
increment. -/
theorem pipeline_send_spec (st : PipelineState) (procs : List ProcessItem)
    (item : Item) :
    (PipelineSend st procs (some item)).2 = chainSpec st.failFast procs item
    ∧ (PipelineSend st procs (some item)).1.sent = (st.sent + 1) % 2 ^ 64
    ∧ (PipelineSend st procs (some item)).1.accepted = (st.accepted + 1) % 2 ^ 64
    ∧ (PipelineSend st procs (some item)).1.processed = (st.processed + 1) % 2 ^ 64
    ∧ (PipelineSend st procs (some item)).1.processingNumber
        = (st.processingNumber + (2 ^ 64 - 1)) % 2 ^ 64
    ∧ (PipelineSend st procs (some item)).1.failFast = st.failFast := by
  refine ⟨?_, rfl, rfl, rfl, ?_, rfl⟩
  · simp [PipelineSend, sendLoop_errs]
  · show ((st.processingNumber + 1) % 2 ^ 64 + (2 ^ 64 - 2)) % 2 ^ 64
      = (st.processingNumber + (2 ^ 64 - 1)) % 2 ^ 64
    rw [Nat.mod_add_mod, Nat.add_assoc]
    norm_num

/-- C2: the admission procedure.  `saveReqToCache` admits a request iff,
in source order, the http request and its URL are present, the lowercased
scheme is `"http"`, the URL string is not yet in the seen-URL map, the
primary domain of the request's host equals the seed's, the depth is at
most `crawl_depth`, and the stop sign is not signed; on success the request
is put into the request cache and its URL string appended to the seen-URL
map, and on any failure both are left unchanged — so a URL string is
admitted at most once per run. -/
theorem saveReqToCache_spec (sched : SchedState) (req : Request) (code : String) :
    ((sched.saveReqToCache req code).2 = true ↔
      ∃ hr u, req.HttpReq = some hr ∧ hr.url = some u
        ∧ toLowerGo u.scheme = "http"
        ∧ sched.urlMap.contains u.str = false
        ∧ primaryDomainOrEmpty hr.host = sched.primaryDomain
        ∧ req.Depth ≤ sched.crawlDepth
        ∧ sched.stopSign.Signed = false)
    ∧ ((sched.saveReqToCache req code).2 = true →
        ∃ hr u, req.HttpReq = some hr ∧ hr.url = some u
          ∧ (sched.saveReqToCache req code).1.reqCache = sched.reqCache.put req
          ∧ (sched.saveReqToCache req code).1.urlMap = sched.urlMap ++ [u.str])
    ∧ ((sched.saveReqToCache req code).2 = false →
        (sched.saveReqToCache req code).1.reqCache = sched.reqCache
        ∧ (sched.saveReqToCache req code).1.urlMap = sched.urlMap) := by
  unfold SchedState.saveReqToCache
  cases hreq : req.HttpReq with
  | none => simp [hreq]
  | some hr =>
    cases hurl : hr.url with
    | none => simp [hreq, hurl]
    | some u =>
      simp only [hreq, hurl]
      split_ifs with h1 h2 h3 h4 h5 <;> simp_all

/-- Witness for the admission theorem: a concrete in-domain, in-depth
request against an unsigned, fresh scheduler state is admitted. -/
theorem saveReqToCache_spec_witness :
    (SchedState.saveReqToCache
      { channelArgs := ⟨10, 10, 10, 10⟩, poolBaseArgs := ⟨3, 3⟩,
        crawlDepth := 3, primaryDomain := "example.com",
        chanmanInitialized := true,
        stopSign := { signed := false, dealCountMap := [] },
        dlpoolTotal := 3, analyzerPoolTotal := 3, itemProcessorCount := 1,
        running := 1, reqCache := { buffer := [], closed := false },
        urlMap := [] }
      (NewRequest (some { url := some { scheme := "http",
                                        str := "http://www.example.com/a" },
                          host := "www.example.com" }) 1)
      "analyzer-1").2 = true := by
  refine (saveReqToCache_spec _ _ _).1.mpr ?_
  exact ⟨_, _, rfl, rfl, by decide, rfl, by decide, by decide, rfl⟩

/-- C10: `Start` stores `running := 1` before validating its inputs, so a
failed startup on an unstarted scheduler leaves the scheduler claiming to
run: `Running()` is true afterwards and every subsequent `Start` call, with
any arguments, is refused with `"The scheduler has been started\n"` and no
state change. -/
theorem start_not_atomic (sched : SchedState) (ca : ChannelArgs)
    (pa : PoolBaseArgs) (cd : Nat) (gnil : Bool)
    (ip : Option (List (Option ProcessItem))) (fr : Option HttpRequest)
    (hrun : sched.running ≠ 1) (err : String)
    (herr : (sched.Start ca pa cd gnil ip fr).2 = some err) :
    (sched.Start ca pa cd gnil ip fr).1.running = 1
    ∧ (sched.Start ca pa cd gnil ip fr).1.Running = true
    ∧ ∀ ca2 pa2 cd2 gnil2 ip2 fr2,
        (sched.Start ca pa cd gnil ip fr).1.Start ca2 pa2 cd2 gnil2 ip2 fr2
          = ((sched.Start ca pa cd gnil ip fr).1,
             some "The scheduler has been started\n") := by
  have hone : (sched.Start ca pa cd gnil ip fr).1.running = 1 := by
    unfold SchedState.Start
    rw [if_neg hrun]
    repeat' split
    all_goals rfl
  refine ⟨hone, ?_, ?_⟩
  · simp [SchedState.Running, hone]
  · intro ca2 pa2 cd2 gnil2 ip2 fr2
    have hstarted : ∀ (s : SchedState), s.running = 1 →
        s.Start ca2 pa2 cd2 gnil2 ip2 fr2
          = (s, some "The scheduler has been started\n") := by
      intro s hs
      unfold SchedState.Start
      rw [if_pos hs]
    exact hstarted _ hone

/-- Witness for C10: a concrete `Start` on an unstarted scheduler with a
nil HTTP-client generator fails, yet `Running()` reports true. -/
theorem start_not_atomic_witness :
    (SchedState.Start
      { channelArgs := ⟨1, 1, 1, 1⟩, poolBaseArgs := ⟨1, 1⟩, crawlDepth := 0,
        primaryDomain := "", chanmanInitialized := false,
        stopSign := { signed := false, dealCountMap := [] },
        dlpoolTotal := 0, analyzerPoolTotal := 0, itemProcessorCount := 0,
        running := 0, reqCache := { buffer := [], closed := true },
        urlMap := [] }
      ⟨10, 10, 10, 10⟩ ⟨3, 3⟩ 3 true (some []) none).1.Running = true :=
  (start_not_atomic
    { channelArgs := ⟨1, 1, 1, 1⟩, poolBaseArgs := ⟨1, 1⟩, crawlDepth := 0,
      primaryDomain := "", chanmanInitialized := false,
      stopSign := { signed := false, dealCountMap := [] },
      dlpoolTotal := 0, analyzerPoolTotal := 0, itemProcessorCount := 0,
      running := 0, reqCache := { buffer := [], closed := true },
      urlMap := [] }
    ⟨10, 10, 10, 10⟩ ⟨3, 3⟩ 3 true (some []) none
    (by decide) "The http client generator list is invalid" rfl).2.1

/-! ### Pool lemmas -/

theorem lookupId_setId_self (m : List (Nat × Bool)) (id : Nat) (v : Bool) :
    lookupId (setId m id v) id = (lookupId m id).map (fun _ => v) := by
  induction m with
  | nil => rfl
  | cons kv rest ih =>
    obtain ⟨k, w⟩ := kv
    by_cases hk : k = id <;> simp [setId, lookupId, hk, ih]

theorem lookupId_setId_ne (m : List (Nat × Bool)) (id id' : Nat) (v : Bool)
    (h : id' ≠ id) : lookupId (setId m id v) id' = lookupId m id' := by
  induction m with
  | nil => rfl
  | cons kv rest ih =>
    obtain ⟨k, w⟩ := kv
    by_cases hk : k = id
    · subst hk
      simp [setId, lookupId, Ne.symm h]
    · simp [setId, lookupId, hk, ih]

theorem keys_setId (m : List (Nat × Bool)) (id : Nat) (v : Bool) :
    (setId m id v).map Prod.fst = m.map Prod.fst := by
  induction m with
  | nil => rfl
  | cons kv rest ih =>
    obtain ⟨k, w⟩ := kv
    by_cases hk : k = id <;> simp [setId, hk, ih]

theorem length_setId (m : List (Nat × Bool)) (id : Nat) (v : Bool) :
    (setId m id v).length = m.length := by
  have := congrArg List.length (keys_setId m id v)
  simpa using this

theorem lookupId_isSome_iff (m : List (Nat × Bool)) (id : Nat) :
    (lookupId m id).isSome ↔ id ∈ m.map Prod.fst := by
  induction m with
  | nil => simp [lookupId]
  | cons kv rest ih =>
    obtain ⟨k, w⟩ := kv
    by_cases hk : k = id
    · subst hk
      simp [lookupId]
    · have hk' : id ≠ k := fun hcontra => hk hcontra.symm
      simp [lookupId, hk, hk', ih]

theorem mapPut_of_isSome (m : List (Nat × Bool)) (id : Nat) (v : Bool)
    (h : (lookupId m id).isSome) : mapPut m id v = setId m id v := by
  simp [mapPut, h]

theorem lookupId_append (m₁ m₂ : List (Nat × Bool)) (id : Nat) :
    lookupId (m₁ ++ m₂) id
      = match lookupId m₁ id with
        | some v => some v
        | none => lookupId m₂ id := by
  induction m₁ with
  | nil => simp [lookupId]
  | cons kv rest ih =>
    obtain ⟨k, w⟩ := kv
    by_cases hk : k = id <;> simp [lookupId, hk, ih]

theorem foldl_mapPut_true (entities : List Entity) :
    ∀ m₀ : List (Nat × Bool),
    (∀ e ∈ entities, lookupId m₀ e.eid = none) →
    (entities.map Entity.eid).Nodup →
    entities.foldl (fun m e => mapPut m e.eid true) m₀
      = m₀ ++ entities.map (fun e => (e.eid, true)) := by
  induction entities with
  | nil => intro m₀ _ _; simp
  | cons e rest ih =>
    intro m₀ h₁ h₂
    rw [List.map_cons, List.nodup_cons] at h₂
    have hme : lookupId m₀ e.eid = none := h₁ e (List.mem_cons_self e rest)
    have hput : mapPut m₀ e.eid true = m₀ ++ [(e.eid, true)] := by
      simp [mapPut, hme]
    have hrest : ∀ e' ∈ rest, lookupId (m₀ ++ [(e.eid, true)]) e'.eid = none := by
      intro e' he'
      rw [lookupId_append, h₁ e' (List.mem_cons_of_mem _ he')]
      have hne : e.eid ≠ e'.eid := by
        intro hcontra
        exact h₂.1 (hcontra ▸ List.mem_map_of_mem Entity.eid he')
      simp [lookupId, hne]
    calc (e :: rest).foldl (fun m e => mapPut m e.eid true) m₀
        = rest.foldl (fun m e => mapPut m e.eid true) (m₀ ++ [(e.eid, true)]) := by
          simp [hput]
      _ = m₀ ++ [(e.eid, true)] ++ rest.map (fun e => (e.eid, true)) :=
          ih _ hrest h₂.2
      _ = m₀ ++ (e :: rest).map (fun e => (e.eid, true)) := by simp

theorem lookupId_map_true (entities : List Entity) (id : Nat) :
    lookupId (entities.map fun e => (e.eid, true)) id
      = if id ∈ entities.map Entity.eid then some true else none := by
  induction entities with
  | nil => simp [lookupId]
  | cons e rest ih =>
    by_cases hk : e.eid = id
    · simp [lookupId, hk]
    · have hk' : id ≠ e.eid := fun hcontra => hk hcontra.symm
      simp [lookupId, hk, hk', ih, List.mem_cons]
/-- A pool freshly built by `NewPool` from entities with distinct ids
satisfies the structural invariant. -/
theorem NewPool_inv (total : Nat) (etype : String) (gen : Nat → Entity)
    (pool : PoolState) (hok : NewPool total etype gen = Except.ok pool)
    (hids : (((List.range total).map gen).map Entity.eid).Nodup) :
    PoolInv pool := by
  unfold NewPool at hok
  split_ifs at hok with h0 hall
  injection hok with heq
  subst heq
  constructor
  · rw [foldl_mapPut_true _ _ (by intro _ _; rfl) hids]
    simpa using hids
  · rw [foldl_mapPut_true _ _ (by intro _ _; rfl) hids]
    simp
  · exact hids
  · intro id
    rw [foldl_mapPut_true _ _ (by intro _ _; rfl) hids]
    simp only [List.nil_append, lookupId_map_true]
    constructor
    · intro h
      simp only [if_pos h]
    · intro h
      by_cases hmem : id ∈ ((List.range total).map gen).map Entity.eid
      · exact hmem
      · rw [if_neg hmem] at h
        exact absurd h (by simp)
  · intro e he
    have := List.all_eq_true.mp hall e he
    simpa using this

/-- Under the invariant the container never exceeds the capacity. -/
theorem PoolInv.container_le {pool : PoolState} (hinv : PoolInv pool) :
    pool.container.length ≤ pool.total := by
  have hsub : pool.container.map Entity.eid ⊆ pool.idContainer.map Prod.fst := by
    intro id hid
    have := (hinv.mem_iff id).mp hid
    exact (lookupId_isSome_iff _ _).mp (by rw [this]; rfl)
  have hle := (List.subperm_of_subset hinv.cont_nodup hsub).length_le
  rw [hinv.total_eq]
  simpa using hle

/-- Characterization of a successful `Take`. -/
theorem Take_eq_some (pool : PoolState) (e : Entity) (pool' : PoolState) :
    pool.Take = some (e, pool') ↔
      ∃ rest, pool.container = e :: rest
        ∧ pool' = { pool with
                    container := rest,
                    idContainer := mapPut pool.idContainer e.eid false } := by
  unfold PoolState.Take
  cases hc : pool.container with
  | nil => simp
  | cons e₀ rest₀ =>
    constructor
    · intro h
      rw [Option.some.injEq, Prod.mk.injEq] at h
      obtain ⟨he, hp⟩ := h
      subst he
      exact ⟨rest₀, rfl, hp.symm⟩
    · rintro ⟨rest, hcons, hp⟩
      injection hcons with he hr
      subst he
      subst hr
      rw [hp]

/-- `Take` on an empty container blocks (no completed transition). -/
theorem Take_empty (pool : PoolState) (h : pool.container = []) :
    pool.Take = none := by
  unfold PoolState.Take
  rw [h]

/-- `Return` with a mismatched entity type errors and leaves the pool
unchanged. -/
theorem Return_type_mismatch (pool : PoolState) (e : Entity)
    (h : e.etype ≠ pool.etype) :
    pool.Return e
      = (pool, some ("The type of returning entity is NOT "
          ++ pool.etype ++ "\n")) := by
  unfold PoolState.Return
  rw [if_pos h]

/-- `Return` of an entity with an id unknown to the occupancy map errors
("illegal") and leaves the pool unchanged. -/
theorem Return_unknown_id (pool : PoolState) (e : Entity)
    (htype : e.etype = pool.etype)
    (hl : lookupId pool.idContainer e.eid = none) :
    pool.Return e
      = (pool, some ("The entity (id=" ++ toString e.eid
          ++ ") is illegal!\n")) := by
  unfold PoolState.Return PoolState.compareAndSetForIdContainer
  rw [if_neg (by simp [htype]), hl]
  norm_num

/-- `Return` of an entity already marked present (a double return) errors
("already in the pool") and leaves the pool unchanged. -/
theorem Return_double (pool : PoolState) (e : Entity)
    (htype : e.etype = pool.etype)
    (hl : lookupId pool.idContainer e.eid = some true) :
    pool.Return e
      = (pool, some ("The entity (id=" ++ toString e.eid
          ++ ") is already in the pool!\n")) := by
  unfold PoolState.Return PoolState.compareAndSetForIdContainer
  rw [if_neg (by simp [htype]), hl]
  norm_num

/-- Characterization of a successful `Return`. -/
theorem Return_success (pool : PoolState) (e : Entity)
    (htype : e.etype = pool.etype)
    (hl : lookupId pool.idContainer e.eid = some false) :
    pool.Return e
      = ({ pool with
           idContainer := setId pool.idContainer e.eid true,
           container := pool.container ++ [e] }, none) := by
  unfold PoolState.Return PoolState.compareAndSetForIdContainer
  rw [if_neg (by simp [htype]), hl]
  norm_num

/-- A successful `Take` preserves the invariant and raises `used` by one. -/
theorem PoolInv.take_step {pool : PoolState} (hinv : PoolInv pool)
    (e : Entity) (pool' : PoolState) (h : pool.Take = some (e, pool')) :
    PoolInv pool' ∧ pool'.used = pool.used + 1 ∧ pool'.total = pool.total := by
  obtain ⟨rest, hc, hp⟩ := (Take_eq_some pool e pool').mp h
  have hmem : e.eid ∈ pool.container.map Entity.eid := by
    rw [hc]; exact List.mem_cons_self _ _
  have hlook : lookupId pool.idContainer e.eid = some true :=
    (hinv.mem_iff e.eid).mp hmem
  have hput : mapPut pool.idContainer e.eid false
      = setId pool.idContainer e.eid false :=
    mapPut_of_isSome _ _ _ (by rw [hlook]; rfl)
  have hcnodup : (rest.map Entity.eid).Nodup ∧ e.eid ∉ rest.map Entity.eid := by
    have := hinv.cont_nodup
    rw [hc, List.map_cons, List.nodup_cons] at this
    exact ⟨this.2, this.1⟩
  have hle := hinv.container_le
  have hlen : pool.container.length = rest.length + 1 := by rw [hc]; rfl
  subst hp
  refine ⟨⟨?_, ?_, hcnodup.1, ?_, ?_⟩, ?_, rfl⟩
  · simpa [hput, keys_setId] using hinv.keys_nodup
  · simpa [hput, length_setId] using hinv.total_eq
  · intro id
    by_cases hid : id = e.eid
    · subst hid
      rw [hput, lookupId_setId_self, hlook]
      simp [hcnodup.2]
    · simp only [hput, lookupId_setId_ne _ _ _ _ hid]
      have := hinv.mem_iff id
      rw [hc, List.map_cons, List.mem_cons] at this
      simpa [hid] using this
  · intro e' he'
    exact hinv.types_ok e' (by rw [hc]; exact List.mem_cons_of_mem _ he')
  · simp only [PoolState.used]
    omega

/-- A `Return` that reports an error leaves the pool unchanged. -/
theorem Return_err_state (pool : PoolState) (e : Entity) (pool' : PoolState)
    (msg : String) (h : pool.Return e = (pool', some msg)) : pool' = pool := by
  by_cases htype : e.etype = pool.etype
  · cases hl : lookupId pool.idContainer e.eid with
    | none =>
      rw [Return_unknown_id pool e htype hl] at h
      exact ((Prod.mk.injEq ..).mp h).1.symm
    | some v =>
      cases v with
      | false =>
        rw [Return_success pool e htype hl] at h
        exact absurd ((Prod.mk.injEq ..).mp h).2 (by simp)
      | true =>
        rw [Return_double pool e htype hl] at h
        exact ((Prod.mk.injEq ..).mp h).1.symm
  · rw [Return_type_mismatch pool e htype] at h
    exact ((Prod.mk.injEq ..).mp h).1.symm

/-- A successful `Return` preserves the invariant and lowers `used` by
one. -/
theorem PoolInv.ret_step {pool : PoolState} (hinv : PoolInv pool)
    (e : Entity) (pool' : PoolState) (h : pool.Return e = (pool', none)) :
    PoolInv pool' ∧ pool'.used + 1 = pool.used ∧ pool'.total = pool.total := by
  by_cases htype : e.etype = pool.etype
  · cases hl : lookupId pool.idContainer e.eid with
    | none =>
      rw [Return_unknown_id pool e htype hl] at h
      exact absurd ((Prod.mk.injEq ..).mp h).2 (by simp)
    | some v =>
      cases v with
      | true =>
        rw [Return_double pool e htype hl] at h
        exact absurd ((Prod.mk.injEq ..).mp h).2 (by simp)
      | false =>
        rw [Return_success pool e htype hl] at h
        obtain ⟨hp, -⟩ := (Prod.mk.injEq ..).mp h
        subst hp
        have hnotin : e.eid ∉ pool.container.map Entity.eid := by
          intro hmem
          have := (hinv.mem_iff e.eid).mp hmem
          rw [hl] at this
          exact absurd this (by simp)
        have hlen : pool.container.length + 1 ≤ pool.total := by
          have hsub : (e.eid :: pool.container.map Entity.eid)
              ⊆ pool.idContainer.map Prod.fst := by
            intro id hid
            rcases List.mem_cons.mp hid with rfl | hid
            · exact (lookupId_isSome_iff _ _).mp (by rw [hl]; rfl)
            · have := (hinv.mem_iff id).mp hid
              exact (lookupId_isSome_iff _ _).mp (by rw [this]; rfl)
          have hnd : (e.eid :: pool.container.map Entity.eid).Nodup :=
            List.nodup_cons.mpr ⟨hnotin, hinv.cont_nodup⟩
          have := (List.subperm_of_subset hnd hsub).length_le
          rw [hinv.total_eq]
          simpa using this
        refine ⟨⟨?_, ?_, ?_, ?_, ?_⟩, ?_, rfl⟩
        · simpa [keys_setId] using hinv.keys_nodup
        · simpa [length_setId] using hinv.total_eq
        · simp only [List.map_append]
          rw [List.nodup_append_comm]
          simpa using List.nodup_cons.mpr ⟨hnotin, hinv.cont_nodup⟩
        · intro id
          by_cases hid : id = e.eid
          · subst hid
            rw [lookupId_setId_self, hl]
            simp
          · simp only [List.map_append, List.mem_append,
              lookupId_setId_ne _ _ _ _ hid]
            have := hinv.mem_iff id
            simpa [hid] using this
        · intro e' he'
          rcases List.mem_append.mp he' with he' | he'
          · exact hinv.types_ok e' he'
          · simp only [List.mem_singleton] at he'
            subst he'
            exact htype
        · simp only [PoolState.used, List.length_append, List.length_singleton]
          omega
  · rw [Return_type_mismatch pool e htype] at h
    exact absurd ((Prod.mk.injEq ..).mp h).2 (by simp)

/-- Every operation preserves the pool invariant. -/
theorem PoolInv.step {pool : PoolState} (hinv : PoolInv pool) (op : PoolOp) :
    PoolInv (applyOp pool op) := by
  cases op with
  | take =>
    show PoolInv (match pool.Take with | none => pool | some (_, p') => p')
    cases ht : pool.Take with
    | none => exact hinv
    | some pr =>
      obtain ⟨e, pool'⟩ := pr
      exact (hinv.take_step e pool' ht).1
  | ret e =>
    show PoolInv (pool.Return e).1
    cases hr : pool.Return e with
    | mk pool' res =>
      cases res with
      | none => exact (hinv.ret_step e pool' hr).1
      | some msg =>
        rw [Return_err_state pool e pool' msg hr]
        exact hinv

/-- Any reachable state of a pool satisfies the invariant. -/
theorem PoolInv.runOps {pool : PoolState} (hinv : PoolInv pool)
    (ops : List PoolOp) : PoolInv (Crawler.runOps pool ops) := by
  induction ops generalizing pool with
  | nil => exact hinv
  | cons op rest ih => exact ih (hinv.step op)

/-- C4: pool conservation.  For every pool built by `NewPool` (with
distinct entity ids, as the id generator guarantees) and every sequence of
`Take`/`Return` operations, the reached state satisfies `used ≤ Total` and
`idleCount + used = Total`; moreover a successful `Take` from that state
increases `used` by one and a successful `Return` decreases it by one. -/
theorem pool_conservation (total : Nat) (etype : String) (gen : Nat → Entity)
    (pool₀ : PoolState) (ops : List PoolOp)
    (hok : NewPool total etype gen = Except.ok pool₀)
    (hids : (((List.range total).map gen).map Entity.eid).Nodup) :
    (runOps pool₀ ops).used ≤ (runOps pool₀ ops).Total
    ∧ (runOps pool₀ ops).idleCount + (runOps pool₀ ops).used
        = (runOps pool₀ ops).Total
    ∧ (∀ e pool', (runOps pool₀ ops).Take = some (e, pool') →
        pool'.used = (runOps pool₀ ops).used + 1)
    ∧ (∀ e pool', (runOps pool₀ ops).Return e = (pool', none) →
        pool'.used + 1 = (runOps pool₀ ops).used) := by
  have hinv : PoolInv (runOps pool₀ ops) :=
    (NewPool_inv total etype gen pool₀ hok hids).runOps ops
  have hle := hinv.container_le
  refine ⟨?_, ?_, ?_, ?_⟩
  · simp only [PoolState.used, PoolState.Total]
    omega
  · simp only [PoolState.used, PoolState.Total, PoolState.idleCount]
    omega
  · intro e pool' h
    exact (hinv.take_step e pool' h).2.1
  · intro e pool' h
    exact (hinv.ret_step e pool' h).2.1

/-- Witness for pool conservation: a concrete two-entity pool after a take
and a return. -/
theorem pool_conservation_witness :
    (runOps { total := 2, etype := "downloader",
                container := [⟨0, "downloader"⟩, ⟨1, "downloader"⟩],
                idContainer := [(0, true), (1, true)] }
        [PoolOp.take, PoolOp.ret ⟨0, "downloader"⟩]).used
      ≤ (runOps { total := 2, etype := "downloader",
                  container := [⟨0, "downloader"⟩, ⟨1, "downloader"⟩],
                  idContainer := [(0, true), (1, true)] }
          [PoolOp.take, PoolOp.ret ⟨0, "downloader"⟩]).Total :=
  (pool_conservation 2 "downloader" (fun i => ⟨i, "downloader"⟩) _
    [PoolOp.take, PoolOp.ret ⟨0, "downloader"⟩] rfl (by decide)).1

/-- C5: the three structural `Return` failures — double return, unknown
id, wrong entity type — each yield an error with its own message and leave
the pool's container and occupancy map unchanged; they are distinct from
the empty-pool condition, under which `Take` blocks (yields no transition
at all) rather than erroring; and after a take followed by two returns of
the same entity the first return succeeds, the second yields the
already-in-pool error, and `used` has decremented exactly once. -/
theorem pool_return_error_cases (total : Nat) (etype : String)
    (gen : Nat → Entity) (pool₀ : PoolState) (ops : List PoolOp)
    (hok : NewPool total etype gen = Except.ok pool₀)
    (hids : (((List.range total).map gen).map Entity.eid).Nodup) :
    (∀ e pool' msg, (runOps pool₀ ops).Return e = (pool', some msg) →
        pool'.container = (runOps pool₀ ops).container
        ∧ pool'.idContainer = (runOps pool₀ ops).idContainer)
    ∧ (∀ e, e.etype ≠ (runOps pool₀ ops).etype →
        ((runOps pool₀ ops).Return e).2
          = some ("The type of returning entity is NOT "
              ++ (runOps pool₀ ops).etype ++ "\n"))
    ∧ (∀ e, e.etype = (runOps pool₀ ops).etype →
        lookupId (runOps pool₀ ops).idContainer e.eid = none →
        ((runOps pool₀ ops).Return e).2
          = some ("The entity (id=" ++ toString e.eid ++ ") is illegal!\n"))
    ∧ (∀ e, e.etype = (runOps pool₀ ops).etype →
        lookupId (runOps pool₀ ops).idContainer e.eid = some true →
        ((runOps pool₀ ops).Return e).2
          = some ("The entity (id=" ++ toString e.eid
              ++ ") is already in the pool!\n"))
    ∧ ((runOps pool₀ ops).container = [] → (runOps pool₀ ops).Take = none)
    ∧ (∀ e pool₁, (runOps pool₀ ops).Take = some (e, pool₁) →
        (pool₁.Return e).2 = none
        ∧ ((pool₁.Return e).1.Return e).2
            = some ("The entity (id=" ++ toString e.eid
                ++ ") is already in the pool!\n")
        ∧ ((pool₁.Return e).1.Return e).1.used = (pool₁.Return e).1.used
        ∧ (pool₁.Return e).1.used + 1 = pool₁.used) := by
  have hinv : PoolInv (runOps pool₀ ops) :=
    (NewPool_inv total etype gen pool₀ hok hids).runOps ops
  refine ⟨?_, ?_, ?_, ?_, Take_empty _, ?_⟩
  · intro e pool' msg h
    rw [Return_err_state (runOps pool₀ ops) e pool' msg h]
    exact ⟨rfl, rfl⟩
  · intro e h
    rw [Return_type_mismatch (runOps pool₀ ops) e h]
  · intro e htype hl
    rw [Return_unknown_id (runOps pool₀ ops) e htype hl]
  · intro e htype hl
    rw [Return_double (runOps pool₀ ops) e htype hl]
  · intro e pool₁ h
    obtain ⟨rest, hc, hp⟩ := (Take_eq_some (runOps pool₀ ops) e pool₁).mp h
    have hinv₁ := (hinv.take_step e pool₁ h).1
    have hmem : e.eid ∈ (runOps pool₀ ops).container.map Entity.eid := by
      rw [hc]
      exact List.mem_cons_self _ _
    have htype : e.etype = (runOps pool₀ ops).etype :=
      hinv.types_ok e (by rw [hc]; exact List.mem_cons_self _ _)
    have hlook : lookupId (runOps pool₀ ops).idContainer e.eid = some true :=
      (hinv.mem_iff e.eid).mp hmem
    have hetype₁ : pool₁.etype = (runOps pool₀ ops).etype := by rw [hp]
    have htype₁ : e.etype = pool₁.etype := htype.trans hetype₁.symm
    have hl₁ : lookupId pool₁.idContainer e.eid = some false := by
      rw [hp]
      show lookupId (mapPut (runOps pool₀ ops).idContainer e.eid false)
        e.eid = some false
      rw [mapPut_of_isSome _ _ _ (by rw [hlook]; rfl), lookupId_setId_self,
        hlook]
      rfl
    have hret := Return_success pool₁ e htype₁ hl₁
    have hretp : pool₁.Return e = ((pool₁.Return e).1, none) := by
      rw [hret]
    have hl₂ : lookupId (pool₁.Return e).1.idContainer e.eid = some true := by
      rw [hret]
      show lookupId (setId pool₁.idContainer e.eid true) e.eid = some true
      rw [lookupId_setId_self, hl₁]
      rfl
    have htype₂ : e.etype = (pool₁.Return e).1.etype := by
      rw [hret]
      exact htype₁
    have hdouble := Return_double (pool₁.Return e).1 e htype₂ hl₂
    refine ⟨by rw [hret], by rw [hdouble], by rw [hdouble], ?_⟩
    exact (hinv₁.ret_step e (pool₁.Return e).1 hretp).2.1

/-- Witness for the return-error theorem: in a one-entity pool, after the
take the first return of the entity succeeds. -/
theorem pool_return_error_cases_witness :
    (PoolState.Return { total := 1, etype := "downloader", container := [],
                        idContainer := [(0, false)] } ⟨0, "downloader"⟩).2
      = none :=
  ((pool_return_error_cases 1 "downloader" (fun i => ⟨i, "downloader"⟩)
      { total := 1, etype := "downloader",
        container := [⟨0, "downloader"⟩], idContainer := [(0, true)] }
      [] rfl (by decide)).2.2.2.2.2
    ⟨0, "downloader"⟩
    { total := 1, etype := "downloader", container := [],
      idContainer := [(0, false)] } rfl).1

/-! ### Primary-domain extractor lemmas -/

theorem dropWhile_eq_self_of {α : Type} (p : α → Bool) (l : List α)
    (h : ∀ c ∈ l, p c = false) : l.dropWhile p = l := by
  cases l with
  | nil => rfl
  | cons c rest =>
    rw [List.dropWhile_cons, h c (List.mem_cons_self c rest)]
    simp

theorem trimSpace_eq_self (l : List Char)
    (h : ∀ c ∈ l, isSpaceGo c = false) : trimSpace l = l := by
  unfold trimSpace
  rw [dropWhile_eq_self_of _ _ h]
  rw [dropWhile_eq_self_of _ _ (fun c hc => h c (List.mem_reverse.mp hc))]
  exact List.reverse_reverse l

theorem patMatch_starts_dot (pat : DomPat) (s : List Char)
    (h : patMatch pat s = true) : ∃ r, s = '.' :: r := by
  cases pat with
  | lit w =>
    simp only [patMatch, beq_iff_eq] at h
    exact ⟨w, h⟩
  | litCc w =>
    simp only [patMatch, Bool.or_eq_true, Bool.and_eq_true, beq_iff_eq] at h
    rcases h with h | ⟨h1, -⟩
    · exact ⟨w, h⟩
    · have := List.take_append_drop (w.length + 1) s
      rw [h1] at this
      exact ⟨w ++ s.drop (w.length + 1), by rw [← this]; simp⟩
  | anyTwo =>
    simp only [patMatch] at h
    split at h
    · next c1 c2 => exact ⟨[c1, c2], rfl⟩
    · simp at h

theorem findPatIdx_none_spec (p : DomPat) (s : List Char)
    (h : findPatIdx p s = none) : ∀ j, patMatch p (s.drop j) = false := by
  induction s with
  | nil =>
    intro j
    rw [findPatIdx] at h
    split at h
    · exact absurd h (by simp)
    · next hm =>
      rw [List.drop_nil]
      exact Bool.not_eq_true _ ▸ hm
  | cons c rest ih =>
    intro j
    rw [findPatIdx] at h
    split at h
    · exact absurd h (by simp)
    · next hm =>
      cases j with
      | zero =>
        rw [List.drop_zero]
        exact Bool.not_eq_true _ ▸ hm
      | succ j' =>
        rw [List.drop_succ_cons]
        have : findPatIdx p rest = none := by
          cases hf : findPatIdx p rest with
          | none => rfl
          | some k => rw [hf] at h; exact absurd h (by simp)
        exact ih this j'

theorem findPatIdx_some_spec (p : DomPat) (s : List Char) (i : Nat)
    (h : findPatIdx p s = some i) :
    patMatch p (s.drop i) = true ∧ ∀ j, j < i → patMatch p (s.drop j) = false := by
  induction s generalizing i with
  | nil =>
    rw [findPatIdx] at h
    split at h
    · next hm =>
      obtain rfl : i = 0 := by cases h; rfl
      exact ⟨by simpa using hm, fun j hj => absurd hj (by omega)⟩
    · exact absurd h (by simp)
  | cons c rest ih =>
    rw [findPatIdx] at h
    split at h
    · next hm =>
      obtain rfl : i = 0 := by cases h; rfl
      exact ⟨by simpa using hm, fun j hj => absurd hj (by omega)⟩
    · next hm =>
      cases hf : findPatIdx p rest with
      | none => rw [hf] at h; exact absurd h (by simp)
      | some k =>
        rw [hf] at h
        obtain rfl : i = k + 1 := by cases h; rfl
        obtain ⟨h1, h2⟩ := ih k hf
        refine ⟨by simpa using h1, fun j hj => ?_⟩
        cases j with
        | zero =>
          rw [List.drop_zero]
          exact Bool.not_eq_true _ ▸ hm
        | succ j' =>
          rw [List.drop_succ_cons]
          exact h2 j' (by omega)

theorem findPatIdx_eq_some_of (p : DomPat) (s : List Char) (i : Nat)
    (h1 : patMatch p (s.drop i) = true)
    (h2 : ∀ j, j < i → patMatch p (s.drop j) = false) :
    findPatIdx p s = some i := by
  induction s generalizing i with
  | nil =>
    obtain rfl : i = 0 := by
      by_contra hne
      have := h2 0 (by omega)
      rw [List.drop_nil] at this h1
      rw [this] at h1
      exact absurd h1 (by simp)
    rw [List.drop_nil] at h1
    rw [findPatIdx, if_pos h1]
  | cons c rest ih =>
    cases i with
    | zero =>
      rw [List.drop_zero] at h1
      rw [findPatIdx, if_pos h1]
    | succ i' =>
      have h0 : patMatch p (c :: rest) = false := by
        have := h2 0 (by omega)
        rwa [List.drop_zero] at this
      rw [findPatIdx, if_neg (by rw [h0]; exact Bool.false_ne_true)]
      rw [ih i' (by rwa [List.drop_succ_cons] at h1)
        (fun j hj => by
          have := h2 (j + 1) (by omega)
          rwa [List.drop_succ_cons] at this)]
      rfl

theorem findPatIdx_eq_none_of (p : DomPat) (s : List Char)
    (h : ∀ j, patMatch p (s.drop j) = false) : findPatIdx p s = none := by
  induction s with
  | nil =>
    rw [findPatIdx, if_neg]
    rw [show ([] : List Char) = List.drop 0 [] from rfl]
    rw [h 0]
    exact Bool.false_ne_true
  | cons c rest ih =>
    rw [findPatIdx, if_neg]
    · rw [ih fun j => by
        have := h (j + 1)
        rwa [List.drop_succ_cons] at this]
      rfl
    · have := h 0
      rw [List.drop_zero] at this
      rw [this]
      exact Bool.false_ne_true

theorem findPatIdx_drop (p : DomPat) (s : List Char) (i k : Nat)
    (h : findPatIdx p s = some i) (hk : k ≤ i) :
    findPatIdx p (s.drop k) = some (i - k) := by
  obtain ⟨h1, h2⟩ := findPatIdx_some_spec p s i h
  refine findPatIdx_eq_some_of p (s.drop k) (i - k) ?_ ?_
  · rw [List.drop_drop]
    rw [show k + (i - k) = i by omega]
    exact h1
  · intro j hj
    rw [List.drop_drop]
    exact h2 (k + j) (by omega)

theorem findPatIdx_drop_none (p : DomPat) (s : List Char) (k : Nat)
    (h : findPatIdx p s = none) : findPatIdx p (s.drop k) = none := by
  have hs := findPatIdx_none_spec p s h
  refine findPatIdx_eq_none_of p (s.drop k) fun j => ?_
  rw [List.drop_drop]
  exact hs (k + j)

theorem findSuffixIndex_drop (ps : List DomPat) (s : List Char) (i k : Nat)
    (h : findSuffixIndex ps s = some i) (hk : k ≤ i) :
    findSuffixIndex ps (s.drop k) = some (i - k) := by
  induction ps with
  | nil => exact absurd h (by simp [findSuffixIndex])
  | cons p rest ih =>
    rw [findSuffixIndex] at h ⊢
    cases hp : findPatIdx p s with
    | some j₀ =>
      rw [hp] at h
      have hji : j₀ = i := by simpa using h
      subst hji
      rw [findPatIdx_drop p s j₀ k hp hk]
    | none =>
      rw [hp] at h
      rw [findPatIdx_drop_none p s k hp]
      exact ih h

theorem findSuffixIndex_matches (ps : List DomPat) (s : List Char) (i : Nat)
    (h : findSuffixIndex ps s = some i) :
    ∃ pat ∈ ps, patMatch pat (s.drop i) = true := by
  induction ps with
  | nil => exact absurd h (by simp [findSuffixIndex])
  | cons p rest ih =>
    rw [findSuffixIndex] at h
    cases hp : findPatIdx p s with
    | some j₀ =>
      rw [hp] at h
      have hji : j₀ = i := by simpa using h
      subst hji
      exact ⟨p, List.mem_cons_self _ _, (findPatIdx_some_spec p s j₀ hp).1⟩
    | none =>
      rw [hp] at h
      obtain ⟨pat, hmem, hpm⟩ := ih h
      exact ⟨pat, List.mem_cons_of_mem _ hmem, hpm⟩

theorem ipMatch_drop (s : List Char) (k : Nat) (h : ipMatch s = false) :
    ipMatch (s.drop k) = false := by
  induction k generalizing s with
  | zero => simpa using h
  | succ k ih =>
    cases s with
    | nil => simpa using h
    | cons c rest =>
      rw [List.drop_succ_cons]
      refine ih rest ?_
      rw [ipMatch] at h
      exact (Bool.or_eq_false_iff.mp h).2

theorem lastDot_none_iff (l : List Char) : lastDot l = none ↔ '.' ∉ l := by
  induction l with
  | nil => simp [lastDot]
  | cons c rest ih =>
    rw [lastDot]
    cases hr : lastDot rest with
    | some j =>
      have : '.' ∈ rest := by
        by_contra hmem
        rw [ih.mpr hmem] at hr
        exact absurd hr (by simp)
      simp [this]
    | none =>
      have hmem : '.' ∉ rest := ih.mp hr
      by_cases hc : c = '.'
      · simp [hc]
      · have hc' : ('.' : Char) ≠ c := fun hx => hc hx.symm
        simp [hc, hc', hmem]

theorem lastDot_decomp (l : List Char) (j : Nat) (h : lastDot l = some j) :
    ∃ l₁ l₂, l = l₁ ++ '.' :: l₂ ∧ l₁.length = j ∧ '.' ∉ l₂ := by
  induction l generalizing j with
  | nil => exact absurd h (by simp [lastDot])
  | cons c rest ih =>
    rw [lastDot] at h
    cases hr : lastDot rest with
    | some j' =>
      rw [hr] at h
      obtain rfl : j = j' + 1 := by cases h; rfl
      obtain ⟨l₁, l₂, hdec, hlen, hdot⟩ := ih j' hr
      exact ⟨c :: l₁, l₂, by rw [hdec]; rfl, by simp [hlen], hdot⟩
    | none =>
      rw [hr] at h
      split_ifs at h with hc
      obtain rfl : j = 0 := by cases h; rfl
      subst hc
      exact ⟨[], rest, rfl, rfl, (lastDot_none_iff rest).mp hr⟩

/-- List-level idempotence of the primary-domain extractor, for a result
that holds no whitespace and does not start with a dot. -/
theorem getPrimaryDomainL_idem (s l : List Char)
    (hok : getPrimaryDomainL s = Except.ok l)
    (hws : ∀ c ∈ l, isSpaceGo c = false)
    (hdot : l.head? ≠ some '.') :
    getPrimaryDomainL l = Except.ok l := by
  unfold getPrimaryDomainL at hok
  set t := trimSpace s with ht
  split_ifs at hok with h1 h2 h3
  · have hl : t = l := by simpa using hok
    subst hl
    unfold getPrimaryDomainL
    rw [trimSpace_eq_self t hws, if_neg h1, if_pos h2]
  · cases hfs : findSuffixIndex regexpForDomains t with
    | none =>
      rw [hfs] at h3
      simp at h3
    | some i =>
      rw [hfs] at hok h3
      simp only [Option.getD_some] at hok h3
      have hl : t.drop (pdIndexOf t i) = l := by simpa using hok
      obtain ⟨pat, hpmem, hpm⟩ := findSuffixIndex_matches _ t i hfs
      obtain ⟨r, hri⟩ := patMatch_starts_dot pat (t.drop i) hpm
      have hine : t.drop i ≠ [] := by rw [hri]; simp
      have hilen : i < t.length := by
        by_contra hge
        rw [List.drop_eq_nil_of_le (by omega)] at hine
        exact hine rfl
      cases hld : lastDot (t.take i) with
      | none =>
        have hpd : pdIndexOf t i = 0 := by
          unfold pdIndexOf
          rw [hld]
        rw [hpd, List.drop_zero] at hl
        subst hl
        unfold getPrimaryDomainL
        rw [trimSpace_eq_self t hws, if_neg h1, if_neg h2, hfs]
        simp only [Option.getD_some]
        rw [if_pos h3]
        unfold pdIndexOf
        rw [hld]
        simp
      | some jd =>
        have hpd : pdIndexOf t i = jd + 1 := by
          unfold pdIndexOf
          rw [hld]
        rw [hpd] at hl
        obtain ⟨l₁, l₂, hdec, hlen, hl2dot⟩ := lastDot_decomp (t.take i) jd hld
        have htakelen : (t.take i).length = i := by
          rw [List.length_take]
          omega
        have hleneq : i = jd + 1 + l₂.length := by
          have hcl := congrArg List.length hdec
          rw [htakelen] at hcl
          simp [List.length_append, hlen] at hcl
          omega
        have hldec : t = (l₁ ++ ['.']) ++ (l₂ ++ t.drop i) := by
          conv_lhs => rw [← List.take_append_drop i t, hdec]
          simp
        have hldropl : l = l₂ ++ t.drop i := by
          rw [← hl]
          conv_lhs => rw [hldec]
          rw [List.drop_left' (by simp [hlen])]
        have hjdlt : jd + 1 < i := by
          by_contra hge
          have hl2len : l₂.length = 0 := by omega
          have hl2nil : l₂ = [] := List.length_eq_zero.mp hl2len
          rw [hl2nil, List.nil_append, hri] at hldropl
          exact hdot (by rw [hldropl]; rfl)
        have htriml : trimSpace l = l := trimSpace_eq_self l hws
        have hlne : l ≠ [] := by
          rw [hldropl, hri]
          simp
        have hipt : ipMatch t = false := by
          cases hip : ipMatch t with
          | false => rfl
          | true => exact absurd hip h2
        have hipl : ipMatch l = false := by
          rw [← hl]
          exact ipMatch_drop t (jd + 1) hipt
        have hfsl : findSuffixIndex regexpForDomains l = some (i - (jd + 1)) := by
          rw [← hl]
          exact findSuffixIndex_drop _ t i (jd + 1) hfs (by omega)
        have htakel : l.take (i - (jd + 1)) = l₂ := by
          rw [hldropl, show i - (jd + 1) = l₂.length by omega]
          exact List.take_left l₂ _
        have hldl2 : lastDot l₂ = none := (lastDot_none_iff l₂).mpr hl2dot
        unfold getPrimaryDomainL
        rw [htriml, if_neg hlne, if_neg (by simp [hipl]), hfsl]
        simp only [Option.getD_some]
        rw [if_pos (by omega : 0 < i - (jd + 1))]
        unfold pdIndexOf
        rw [htakel, hldl2]
        simp

/-- C6 counterexample: idempotence fails on the code.  `"a..com"`
succeeds with primary domain `".com"`, but a second application to
`".com"` fails (`\.(com|com\.\w{2})$` then matches at index 0, which the
`suffixIndex > 0` guard rejects); and `"a. b.com"` succeeds with
`" b.com"`, whose second application trims the space and returns the
different string `"b.com"`. -/
theorem getPrimaryDomain_not_idempotent_cex :
    getPrimaryDomain "a..com" = Except.ok ".com"
    ∧ getPrimaryDomain ".com" = Except.error "Unrecognized host!"
    ∧ getPrimaryDomain "a. b.com" = Except.ok " b.com"
    ∧ getPrimaryDomain " b.com" = Except.ok "b.com" :=
  ⟨rfl, rfl, rfl, rfl⟩

/-- C6 amended: for every host string on which `getPrimaryDomain` succeeds
with result `p`, if `p` contains no whitespace and does not start with a
dot, then `getPrimaryDomain p` succeeds and returns `p` again. -/
theorem getPrimaryDomain_idem (h p : String)
    (hok : getPrimaryDomain h = Except.ok p)
    (hws : ∀ c ∈ p.toList, isSpaceGo c = false)
    (hdot : p.toList.head? ≠ some '.') :
    getPrimaryDomain p = Except.ok p := by
  unfold getPrimaryDomain at hok ⊢
  cases hl : getPrimaryDomainL h.toList with
  | error e =>
    rw [hl] at hok
    exact absurd hok (by simp [Except.map])
  | ok l =>
    rw [hl] at hok
    simp only [Except.map] at hok
    have hp : String.mk l = p := by simpa using hok
    subst hp
    have hpl : (String.mk l).toList = l := rfl
    rw [hpl] at hws hdot
    rw [hpl, getPrimaryDomainL_idem h.toList l hl hws hdot]
    rfl

/-- Witness for the amended idempotence: `"example.com"`, the primary
domain of `"www.example.com"`, maps to itself. -/
theorem getPrimaryDomain_idem_witness :
    getPrimaryDomain "example.com" = Except.ok "example.com" :=
  getPrimaryDomain_idem "www.example.com" "example.com" rfl (by decide)
    (by decide)

end Crawler
